import Mathlib

/-!
Verification of the `atl08kit` boolean filter-expression subsystem
(`src/atl08kit/expr.py` and `src/atl08kit/filters.py`).

The Python code is shallowly embedded:

* Python / numpy / pandas runtime values are modelled by `Scalar`, `Vec`
  and `Value`.  Numeric columns (int64 / float64 dtypes) are collapsed into
  one numeric vector dtype carried as exact rationals; the dtype
  distinction that the code inspects (`result.dtype != bool`) is boolean
  versus non-boolean, which the model preserves exactly.  Python scalar
  ints and floats are kept apart because `~` (bitwise invert) behaves
  differently on them.
* Every `raise ExprError(...)` in the source is an `Err.exprError` with a
  constructor per distinct message; exceptions coming from the host
  runtime (TypeError, ZeroDivisionError, IndexError, AttributeError,
  RecursionError...) are `Err.hostError`.
* Floating point is modelled by exact rationals.  Where the host runtime
  would produce a non-finite float (elementwise division by zero,
  irrational powers) the model returns a `hostError`; no claim below
  exercises those paths.
* Bitwise `&` / `|` on non-boolean operands other than Python ints, and
  arithmetic whose operands include boolean vectors, are likewise routed
  to `hostError`: numpy would do integer bitwise arithmetic or
  logical-or-style addition there, but no claim depends on these paths,
  which are unreachable from boolean filter expressions over numeric and
  boolean columns.
-/

namespace Atl08Kit

/-- The distinct `ExprError` messages raised in `expr.py`, one constructor
per `raise ExprError(...)` site. -/
inductive ExprErrKind where
  | invalidSyntax                              -- "Invalid expression syntax: ..."
  | disallowedSyntax (kind : String)           -- "Disallowed syntax: ..."
  | disallowedOperator (kind : String)         -- "Disallowed operator: ..."
  | disallowedUnaryOperator (kind : String)    -- "Disallowed unary operator: ..."
  | disallowedBoolOperator (kind : String)     -- "Disallowed boolean operator: ..."
  | disallowedComparisonOperator (kind : String)
  | nonSimpleCall                              -- "Only simple function calls like abs(x) are allowed."
  | functionNotAllowed (name : String)
  | keywordArgsNotAllowed
  | wrongArity (name : String)
  | missingColumns (cols : List String)        -- "Expression references missing columns: ..."
  | badConstantType (kind : String)            -- "Only numeric/bool constants are allowed, ..."
  | unknownName (id : String)
  | unknownFunction (name : String)
  | nonBooleanVector                           -- "... boolean mask (use comparisons like <, ==, etc.)."
  | nonBooleanResult                           -- "Expression must evaluate to a boolean mask."
  | unsupportedComparison (kind : String)
  | unsupportedElement (kind : String)
deriving DecidableEq, Repr

/-- Errors escaping the subsystem: every `ExprErrKind` is raised as the
single Python class `ExprError`; `hostError` carries the class name of an
exception raised by the Python/numpy/pandas runtime itself. -/
inductive Err where
  | exprError (kind : ExprErrKind)
  | hostError (kind : String)
deriving DecidableEq, Repr

/-- The Python exception class an `Err` surfaces as: all `ExprError`
raises share one class (`expr.py` line 11 defines the single class). -/
def pyExceptionClass : Err → String
  | .exprError _ => "ExprError"
  | .hostError k => k

/-- Python scalar values that can flow through `_eval_node`. -/
inductive Scalar where
  | intS (n : Int)
  | floatS (q : Rat)
  | boolS (b : Bool)
  | noneS
deriving DecidableEq, Repr

/-- Column vectors (pandas Series): one numeric dtype (exact rationals)
and the boolean dtype. -/
inductive Vec where
  | numV (xs : List Rat)
  | boolV (xs : List Bool)
deriving DecidableEq, Repr

def Vec.len : Vec → Nat
  | .numV xs => xs.length
  | .boolV xs => xs.length

/-- A runtime value: scalar or vector. -/
inductive Value where
  | scalar (s : Scalar)
  | vector (v : Vec)
deriving DecidableEq, Repr

/-- What the evaluation environment binds: column data or a registry
function (`np.abs`). -/
inductive EnvVal where
  | val (v : Value)
  | func (name : String)
deriving DecidableEq, Repr

/-- A Python number, keeping int and float apart (booleans promote to
int, as in Python arithmetic). -/
inductive PyNum where
  | i (n : Int)
  | f (q : Rat)
deriving DecidableEq, Repr

def PyNum.toRat : PyNum → Rat
  | .i n => (n : Rat)
  | .f q => q

/-- Numeric view of a scalar; `None` has none (arithmetic with it is a
host TypeError). -/
def Scalar.toNum? : Scalar → Option PyNum
  | .intS n => some (.i n)
  | .floatS q => some (.f q)
  | .boolS b => some (.i (if b then 1 else 0))
  | .noneS => none

/-- Numeric view of a vector: boolean vectors promote elementwise to 0/1,
as numpy does when a bool Series meets a numeric operand. -/
def Vec.toRats : Vec → List Rat
  | .numV xs => xs
  | .boolV xs => xs.map (fun b => if b then 1 else 0)

/-! ### AST tags (`ast` node classes relevant to `expr.py`)

Tags outside the code's allow-lists are represented explicitly
(`otherB`, `otherU`, `otherC`, `PyExpr.other`) so that the validator can
be stated over arbitrary parsed trees, exactly as `_validate_ast` walks
arbitrary `ast` trees. -/

inductive BinTag where
  | add | sub | mult | div | pow
  | otherB (kind : String)     -- Mod, FloorDiv, BitAnd, LShift, MatMult, ...
deriving DecidableEq, Repr

inductive UnTag where
  | uAdd | uSub | notT
  | otherU (kind : String)     -- Invert
deriving DecidableEq, Repr

inductive BoolTag where
  | andT | orT                 -- Python BoolOp only has And / Or
deriving DecidableEq, Repr

inductive CmpTag where
  | lt | le | gt | ge | eq | ne
  | otherC (kind : String)     -- Is, IsNot, In, NotIn
deriving DecidableEq, Repr

/-- Python constant payloads reachable via `ast.Constant` in the grammar
subset that matters here. -/
inductive Const where
  | intC (n : Int)
  | floatC (q : Rat)
  | boolC (b : Bool)
  | noneC
  | strC (s : String)
deriving DecidableEq, Repr

/-- The Python `ast` expression tree as walked by `expr.py`.  `other`
stands for any node class outside `_ALLOWED_NODES` (Attribute,
Subscript, Lambda, Starred, ...), carrying its child expressions. -/
inductive PyExpr where
  | constant (c : Const)
  | name (id : String)
  | unaryOp (op : UnTag) (operand : PyExpr)
  | binOp (op : BinTag) (left : PyExpr) (right : PyExpr)
  | boolOp (op : BoolTag) (values : List PyExpr)
  | compare (left : PyExpr) (pairs : List (CmpTag × PyExpr))
  | call (fn : PyExpr) (args : List PyExpr) (numKeywords : Nat)
  | other (kind : String) (children : List PyExpr)

/-! ### Host operator semantics

These model what `left + right`, `left < right`, `~operand`, ... do in
Python / numpy / pandas for the value shapes that can flow through
`_eval_node`. -/

/-- Scalar addition / subtraction / multiplication with Python int/float
promotion. -/
def numAdd : PyNum → PyNum → PyNum
  | .i a, .i b => .i (a + b)
  | a, b => .f (a.toRat + b.toRat)

def numSub : PyNum → PyNum → PyNum
  | .i a, .i b => .i (a - b)
  | a, b => .f (a.toRat - b.toRat)

def numMul : PyNum → PyNum → PyNum
  | .i a, .i b => .i (a * b)
  | a, b => .f (a.toRat * b.toRat)

/-- Python scalar true division: always float, `ZeroDivisionError` on a
zero divisor. -/
def numDiv (a b : PyNum) : Except Err PyNum :=
  if b.toRat = 0 then .error (.hostError "ZeroDivisionError")
  else .ok (.f (a.toRat / b.toRat))

/-- Rational power with integer exponent; negative exponents of zero
raise, mirroring Python `0 ** -1`. -/
def ratZpow (q : Rat) (e : Int) : Except Err Rat :=
  if 0 ≤ e then .ok (q ^ e.toNat)
  else if q = 0 then .error (.hostError "ZeroDivisionError")
  else .ok (q ^ e)

/-- Python scalar `**`.  `int ** nonnegative int` stays int, everything
else is float; non-integer exponents generally yield irrational floats,
which the rational model conservatively rejects (no claim uses them). -/
def numPow (a b : PyNum) : Except Err PyNum :=
  match a, b with
  | .i n, .i e =>
    if 0 ≤ e then .ok (.i (n ^ e.toNat))
    else (ratZpow (n : Rat) e).map .f
  | .f q, .i e => (ratZpow q e).map .f
  | _, .f qe =>
    if qe.den = 1 then (ratZpow a.toRat qe.num).map .f
    else .error (.hostError "NonRationalPower")

/-- Elementwise arithmetic on rationals (numpy vector paths).  numpy does
not raise on elementwise division by zero; it produces inf/nan, which the
rational model conservatively reports as a host error (no claim touches
non-finite values). -/
def arithRat : BinTag → Rat → Rat → Except Err Rat
  | .add, x, y => .ok (x + y)
  | .sub, x, y => .ok (x - y)
  | .mult, x, y => .ok (x * y)
  | .div, x, y =>
    if y = 0 then .error (.hostError "NonFiniteFloat") else .ok (x / y)
  | .pow, x, y =>
    if y.den = 1 then ratZpow x y.num
    else .error (.hostError "NonRationalPower")
  | .otherB _, _, _ => .error (.hostError "TypeError")

/-- Scalar arithmetic dispatch on the five allowed operators. -/
def arithScalar : BinTag → PyNum → PyNum → Except Err PyNum
  | .add, a, b => .ok (numAdd a b)
  | .sub, a, b => .ok (numSub a b)
  | .mult, a, b => .ok (numMul a b)
  | .div, a, b => numDiv a b
  | .pow, a, b => numPow a b
  | .otherB _, _, _ => .error (.hostError "TypeError")

/-- Elementwise combination of two equal-length lists; a length mismatch
models a pandas index-alignment surprise and is unreachable when both
vectors come from one table. -/
def zipWithE (f : α → β → Except Err γ) : List α → List β → Except Err (List γ)
  | [], [] => .ok []
  | x :: xs, y :: ys => do
    let z ← f x y
    let zs ← zipWithE f xs ys
    .ok (z :: zs)
  | _, _ => .error (.hostError "AlignmentMismatch")

def mapE (f : α → Except Err β) : List α → Except Err (List β)
  | [] => .ok []
  | x :: xs => do
    let y ← f x
    let ys ← mapE f xs
    .ok (y :: ys)

/-- Binary arithmetic on runtime values (`left <op> right` in
`_eval_node`):  scalar/scalar keeps Python int/float semantics, any
vector operand switches to elementwise numpy semantics with numeric
promotion of booleans.  Arithmetic where both operands are boolean
vectors differs in numpy (add is logical or, ...); the model routes the
promotion uniformly — no claim exercises boolean-vector arithmetic. -/
def binArith (t : BinTag) (a b : Value) : Except Err Value :=
  match a, b with
  | .scalar x, .scalar y =>
    match x.toNum?, y.toNum? with
    | some nx, some ny => (arithScalar t nx ny).map (fun r =>
        .scalar (match r with | .i n => .intS n | .f q => .floatS q))
    | _, _ => .error (.hostError "TypeError")
  | .scalar x, .vector v =>
    match x.toNum? with
    | some nx => (mapE (fun y => arithRat t nx.toRat y) v.toRats).map (fun l => .vector (.numV l))
    | none => .error (.hostError "TypeError")
  | .vector v, .scalar y =>
    match y.toNum? with
    | some ny => (mapE (fun x => arithRat t x ny.toRat) v.toRats).map (fun l => .vector (.numV l))
    | none => .error (.hostError "TypeError")
  | .vector v, .vector w =>
    (zipWithE (arithRat t) v.toRats w.toRats).map (fun l => .vector (.numV l))

/-- Rational comparison for one allowed comparison operator. -/
def cmpRat : CmpTag → Rat → Rat → Bool
  | .lt, x, y => x < y
  | .le, x, y => x ≤ y
  | .gt, x, y => x > y
  | .ge, x, y => x ≥ y
  | .eq, x, y => x == y
  | .ne, x, y => x != y
  | .otherC _, _, _ => false    -- unreachable: dispatch rejects otherC first

/-- Scalar comparison: numbers (bools as 0/1) compare numerically;
`None` is equal only to itself and has no order (`TypeError`). -/
def cmpScalar (t : CmpTag) (x y : Scalar) : Except Err Bool :=
  match t with
  | .eq =>
    match x.toNum?, y.toNum? with
    | some nx, some ny => .ok (cmpRat .eq nx.toRat ny.toRat)
    | _, _ => .ok (x = .noneS ∧ y = .noneS : Bool)
  | .ne =>
    match x.toNum?, y.toNum? with
    | some nx, some ny => .ok (cmpRat .ne nx.toRat ny.toRat)
    | _, _ => .ok (!(x = .noneS ∧ y = .noneS : Bool))
  | .otherC _ => .error (.hostError "TypeError")
  | _ =>
    match x.toNum?, y.toNum? with
    | some nx, some ny => .ok (cmpRat t nx.toRat ny.toRat)
    | _, _ => .error (.hostError "TypeError")

/-- `left <op> right` for one comparison step in the chained-comparison
loop; results are Python bools (scalar/scalar) or boolean Series. -/
def compareOp (t : CmpTag) (a b : Value) : Except Err Value :=
  match t with
  | .otherC _ => .error (.hostError "TypeError")
  | _ =>
    match a, b with
    | .scalar x, .scalar y => (cmpScalar t x y).map (fun r => .scalar (.boolS r))
    | .scalar x, .vector v =>
      match x.toNum? with
      | some nx => .ok (.vector (.boolV (v.toRats.map (fun y => cmpRat t nx.toRat y))))
      | none =>    -- Series compared with None: == is all-false, != all-true, order raises
        match x, t with
        | .noneS, .eq => .ok (.vector (.boolV (List.replicate v.len false)))
        | .noneS, .ne => .ok (.vector (.boolV (List.replicate v.len true)))
        | _, _ => .error (.hostError "TypeError")
    | .vector v, .scalar y =>
      match y.toNum? with
      | some ny => .ok (.vector (.boolV (v.toRats.map (fun x => cmpRat t x ny.toRat))))
      | none =>
        match y, t with
        | .noneS, .eq => .ok (.vector (.boolV (List.replicate v.len false)))
        | .noneS, .ne => .ok (.vector (.boolV (List.replicate v.len true)))
        | _, _ => .error (.hostError "TypeError")
    | .vector v, .vector w =>
      (zipWithE (fun x y => .ok (cmpRat t x y)) v.toRats w.toRats).map
        (fun l => .vector (.boolV l))

/-- Guarded boolean zip (pandas aligns equal-length Series from one
table). -/
def zipBool (f : Bool → Bool → Bool) (xs ys : List Bool) : Except Err (List Bool) :=
  if xs.length = ys.length then .ok (List.zipWith f xs ys)
  else .error (.hostError "AlignmentMismatch")

/-- Integer view for Python `&`/`|` on scalars: ints and bools only. -/
def Scalar.toInt? : Scalar → Option Int
  | .intS n => some n
  | .boolS b => some (if b then 1 else 0)
  | _ => none

/-- Python / pandas `x & y` as used for `and` folding and chained
comparisons: logical on booleans, bitwise on Python ints, `TypeError`
otherwise.  (`&` with a numeric int Series would be bitwise in numpy;
that path is outside every claim and modelled as the same host error as
floats.) -/
def bitAnd (a b : Value) : Except Err Value :=
  match a, b with
  | .scalar (.boolS x), .scalar (.boolS y) => .ok (.scalar (.boolS (x && y)))
  | .scalar x, .scalar y =>
    match x.toInt?, y.toInt? with
    | some nx, some ny => .ok (.scalar (.intS (Int.land nx ny)))
    | _, _ => .error (.hostError "TypeError")
  | .scalar (.boolS x), .vector (.boolV ys) => .ok (.vector (.boolV (ys.map (fun y => x && y))))
  | .vector (.boolV xs), .scalar (.boolS y) => .ok (.vector (.boolV (xs.map (fun x => x && y))))
  | .vector (.boolV xs), .vector (.boolV ys) => (zipBool (· && ·) xs ys).map (fun l => .vector (.boolV l))
  | _, _ => .error (.hostError "TypeError")

/-- Python / pandas `x | y`, dual to `bitAnd`. -/
def bitOr (a b : Value) : Except Err Value :=
  match a, b with
  | .scalar (.boolS x), .scalar (.boolS y) => .ok (.scalar (.boolS (x || y)))
  | .scalar x, .scalar y =>
    match x.toInt?, y.toInt? with
    | some nx, some ny => .ok (.scalar (.intS (Int.lor nx ny)))
    | _, _ => .error (.hostError "TypeError")
  | .scalar (.boolS x), .vector (.boolV ys) => .ok (.vector (.boolV (ys.map (fun y => x || y))))
  | .vector (.boolV xs), .scalar (.boolS y) => .ok (.vector (.boolV (xs.map (fun x => x || y))))
  | .vector (.boolV xs), .vector (.boolV ys) => (zipBool (· || ·) xs ys).map (fun l => .vector (.boolV l))
  | _, _ => .error (.hostError "TypeError")

/-- Python `~operand` (`not` in the grammar maps to `~`): logical
complement on boolean Series, bitwise invert on Python ints — and on
Python `bool` scalars, which are ints, so `~True = -2`.  Floats and
`None` raise; numeric Series are routed to the same host error (int
dtype would invert bitwise, float dtype raises; outside every claim). -/
def pyInvert : Value → Except Err Value
  | .vector (.boolV xs) => .ok (.vector (.boolV (xs.map (fun b => !b))))
  | .scalar (.intS n) => .ok (.scalar (.intS (-(n + 1))))
  | .scalar (.boolS b) => .ok (.scalar (.intS (-((if b then 1 else 0) + 1))))
  | _ => .error (.hostError "TypeError")

/-- Python `+operand`: identity on numbers (bools become ints), and on a
boolean Series pandas `__pos__` returns a copy. -/
def pyPos : Value → Except Err Value
  | .scalar (.intS n) => .ok (.scalar (.intS n))
  | .scalar (.floatS q) => .ok (.scalar (.floatS q))
  | .scalar (.boolS b) => .ok (.scalar (.intS (if b then 1 else 0)))
  | .vector (.numV xs) => .ok (.vector (.numV xs))
  | .vector (.boolV xs) => .ok (.vector (.boolV xs))
  | .scalar .noneS => .error (.hostError "TypeError")

/-- Python `-operand`: arithmetic negation on numbers (bools become
ints); on a boolean Series pandas `__neg__` applies the elementwise
logical complement. -/
def pyNeg : Value → Except Err Value
  | .scalar (.intS n) => .ok (.scalar (.intS (-n)))
  | .scalar (.floatS q) => .ok (.scalar (.floatS (-q)))
  | .scalar (.boolS b) => .ok (.scalar (.intS (-(if b then 1 else 0))))
  | .vector (.numV xs) => .ok (.vector (.numV (xs.map (fun x => -x))))
  | .vector (.boolV xs) => .ok (.vector (.boolV (xs.map (fun b => !b))))
  | .scalar .noneS => .error (.hostError "TypeError")

/-- `np.abs` applied to one evaluated argument. -/
def npAbs : Value → Except Err Value
  | .scalar (.intS n) => .ok (.scalar (.intS |n|))
  | .scalar (.floatS q) => .ok (.scalar (.floatS |q|))
  | .scalar (.boolS b) => .ok (.scalar (.boolS b))
  | .scalar .noneS => .error (.hostError "TypeError")
  | .vector (.numV xs) => .ok (.vector (.numV (xs.map (fun x => |x|))))
  | .vector (.boolV xs) => .ok (.vector (.boolV xs))

/-! ### Compilation (`compile_expr`, `_validate_ast`, `_collect_names`) -/

/-- `_ALLOWED_FUNCS`: the function registry, keyed by name. -/
def allowedFuncNames : List String := ["abs"]

mutual

/-- `_validate_ast`: default-deny walk over the tree.  The walk order in
the source is breadth-first while this recursion is depth-first; when a
tree has several violations the reported kind can differ, but acceptance
is identical and every claim below depends only on which trees are
rejected.  Note that `ast.Constant` is allowed with any payload: string
constants pass validation and are only rejected later by `_eval_node`. -/
def validate : PyExpr → Except Err Unit
  | .constant _ => .ok ()
  | .name _ => .ok ()
  | .unaryOp op e =>
    match op with
    | .otherU k => .error (.exprError (.disallowedUnaryOperator k))
    | _ => validate e
  | .binOp op l r =>
    match op with
    | .otherB k => .error (.exprError (.disallowedOperator k))
    | _ => do
      validate l
      validate r
  | .boolOp _ vs => validateList vs
  | .compare l pairs =>
    match pairs.find? (fun p => match p.1 with | .otherC _ => true | _ => false) with
    | some p =>
      .error (.exprError (.disallowedComparisonOperator
        (match p.1 with | .otherC k => k | _ => "")))
    | none => do
      validate l
      validatePairs pairs
  | .call fn args numKeywords =>
    match fn with
    | .name fname =>
      if fname ∉ allowedFuncNames then
        .error (.exprError (.functionNotAllowed fname))
      else if numKeywords ≠ 0 then
        .error (.exprError .keywordArgsNotAllowed)
      else if args.length ≠ 1 then
        .error (.exprError (.wrongArity fname))
      else
        validateList args
    | _ => .error (.exprError .nonSimpleCall)
  | .other kind _ => .error (.exprError (.disallowedSyntax kind))

/-- Validation of a list of child nodes, left to right. -/
def validateList : List PyExpr → Except Err Unit
  | [] => .ok ()
  | e :: es => do
    validate e
    validateList es

/-- Validation of the comparator expressions of a `Compare` node. -/
def validatePairs : List (CmpTag × PyExpr) → Except Err Unit
  | [] => .ok ()
  | p :: ps => do
    validate p.2
    validatePairs ps

end

mutual

/-- `_collect_names`: every `ast.Name` identifier in the tree. -/
def collectNames : PyExpr → List String
  | .constant _ => []
  | .name id => [id]
  | .unaryOp _ e => collectNames e
  | .binOp _ l r => collectNames l ++ collectNames r
  | .boolOp _ vs => collectNamesList vs
  | .compare l pairs => collectNames l ++ collectNamesPairs pairs
  | .call fn args _ => collectNames fn ++ collectNamesList args
  | .other _ children => collectNamesList children

def collectNamesList : List PyExpr → List String
  | [] => []
  | e :: es => collectNames e ++ collectNamesList es

/-- Name collection over the comparator expressions of a `Compare`. -/
def collectNamesPairs : List (CmpTag × PyExpr) → List String
  | [] => []
  | p :: ps => collectNames p.2 ++ collectNamesPairs ps

end

/-- `CompiledExpr`: the frozen dataclass. `names` models the Python set
of referenced identifiers as a duplicate-free list. -/
structure CompiledExpr where
  expr : String
  ast_tree : PyExpr
  names : List String

/-- `compile_expr`.  `parsed` stands for the outcome of the external
`ast.parse(expr, mode="eval")`: `Except.error` is a host `SyntaxError`,
which the code re-raises as `ExprError`; the tree is then validated and
names are collected, dropping registry function names. -/
def compile_expr (expr : String) (parsed : Except String PyExpr) :
    Except Err CompiledExpr :=
  match parsed with
  | .error _ => .error (.exprError .invalidSyntax)
  | .ok tree =>
    match validate tree with
    | .error e => .error e
    | .ok _ =>
      .ok { expr := expr, ast_tree := tree,
            names := (collectNames tree).dedup.filter
              (fun n => decide (n ∉ allowedFuncNames)) }

/-! ### Tables and evaluation (`eval_expr`, `_eval_node`) -/

/-- A pandas DataFrame as the core sees it: a row count and named
columns.  Well-formedness (`Table.WF`) says every column has the row
count. -/
structure Table where
  nrows : Nat
  cols : List (String × Vec)

def lookupPairs : List (String × Vec) → String → Option Vec
  | [], _ => none
  | p :: ps, c => if p.1 = c then some p.2 else lookupPairs ps c

def Table.lookup (df : Table) (c : String) : Option Vec :=
  lookupPairs df.cols c

/-- `c in df.columns`. -/
def Table.hasCol (df : Table) (c : String) : Bool :=
  (df.lookup c).isSome

/-- All columns share the table's row count. -/
def Table.WF (df : Table) : Prop :=
  ∀ p ∈ df.cols, Vec.len p.2 = df.nrows

/-- The evaluation environment of `eval_expr`: first each referenced
name is bound to its column, then `env.update(_ALLOWED_FUNCS)` lets
registry functions override, so a function name always resolves to the
function. -/
def buildEnv (names : List String) (df : Table) : String → Option EnvVal :=
  fun id =>
    if allowedFuncNames.contains id then some (.func id)
    else if names.contains id then (df.lookup id).map (fun v => .val (.vector v))
    else none

/-- `ast.Constant` evaluation: numeric / bool / `None` payloads pass,
anything else raises (this — not compilation — is where string literals
die). -/
def evalConst : Const → Except Err EnvVal
  | .intC n => .ok (.val (.scalar (.intS n)))
  | .floatC q => .ok (.val (.scalar (.floatS q)))
  | .boolC b => .ok (.val (.scalar (.boolS b)))
  | .noneC => .ok (.val (.scalar .noneS))
  | .strC _ => .error (.exprError (.badConstantType "str"))

/-- Unary dispatch: a disallowed operator class falls through every
`if isinstance` in `_eval_node` to the final
`Unsupported expression element` raise. -/
def evalUnary (t : UnTag) (v : EnvVal) : Except Err EnvVal :=
  match t, v with
  | .otherU _, _ => .error (.exprError (.unsupportedElement "UnaryOp"))
  | .notT, .val x => (pyInvert x).map .val
  | .uAdd, .val x => (pyPos x).map .val
  | .uSub, .val x => (pyNeg x).map .val
  | _, .func _ => .error (.hostError "TypeError")

/-- Binary dispatch, after both operands are evaluated. -/
def evalBinary (t : BinTag) (a b : EnvVal) : Except Err EnvVal :=
  match t with
  | .otherB _ => .error (.exprError (.unsupportedElement "BinOp"))
  | _ =>
    match a, b with
    | .val x, .val y => (binArith t x y).map .val
    | _, _ => .error (.hostError "TypeError")

/-- One `out = out & v` / `out = out | v` step of the BoolOp fold. -/
def boolStep (t : BoolTag) (a b : EnvVal) : Except Err EnvVal :=
  match a, b with
  | .val x, .val y =>
    (match t with
     | .andT => bitAnd x y
     | .orT => bitOr x y).map .val
  | _, _ => .error (.hostError "TypeError")

/-- The BoolOp fold: `out = values[0]; for v in values[1:]: out = out <op> v`. -/
def foldBool (t : BoolTag) (x : EnvVal) : List EnvVal → Except Err EnvVal
  | [] => .ok x
  | y :: ys => do
    let z ← boolStep t x y
    foldBool t z ys

/-- One `cur = left <op> right` comparison step; a comparison operator
outside the `elif` chain hits the explicit
`Unsupported comparison operator` raise. -/
def compareStep (t : CmpTag) (a b : EnvVal) : Except Err Value :=
  match t with
  | .otherC k => .error (.exprError (.unsupportedComparison k))
  | _ =>
    match a, b with
    | .val x, .val y => compareOp t x y
    | _, _ => .error (.hostError "TypeError")

/-- Applying the object a call target evaluated to: only the registry
function is callable; applying column data raises at host level. -/
def applyCallable : EnvVal → EnvVal → Except Err EnvVal
  | .func fname, .val arg =>
    if fname = "abs" then (npAbs arg).map .val
    else .error (.hostError "TypeError")
  | _, _ => .error (.hostError "TypeError")

mutual

/-- `_eval_node`: the recursive evaluator over the tree and the binding
environment. -/
def evalNode : PyExpr → (String → Option EnvVal) → Except Err EnvVal
  | .constant c, _ => evalConst c
  | .name id, env =>
    match env id with
    | none => .error (.exprError (.unknownName id))
    | some v => .ok v
  | .unaryOp op e, env => do
    let v ← evalNode e env
    evalUnary op v
  | .binOp op l r, env => do
    let a ← evalNode l env
    let b ← evalNode r env
    evalBinary op a b
  | .boolOp op vs, env => do
    let xs ← evalNodeList vs env
    match xs with
    | [] => .error (.hostError "IndexError")   -- values[0] of an empty list
    | x :: rest => foldBool op x rest
  | .compare l pairs, env => do
    let v ← evalNode l env
    evalChain v none pairs env
  | .call fn args _, env =>
    match fn with
    | .name fname =>
      match env fname with
      | none => .error (.exprError (.unknownFunction fname))
      | some fv =>
        match args with
        | [] => .error (.hostError "IndexError")   -- node.args[0]
        | a :: _ => do
          let arg ← evalNode a env
          applyCallable fv arg
    | _ => .error (.hostError "AttributeError")    -- node.func.id on a non-Name
  | .other kind _, _ => .error (.exprError (.unsupportedElement kind))

/-- Left-to-right evaluation of BoolOp operand lists (no
short-circuiting: all operands are evaluated first). -/
def evalNodeList : List PyExpr → (String → Option EnvVal) → Except Err (List EnvVal)
  | [], _ => .ok []
  | e :: es, env => do
    let v ← evalNode e env
    let vs ← evalNodeList es env
    .ok (v :: vs)

/-- The chained-comparison loop of `_eval_node`: evaluate `right`,
compute `cur = left <op> right`, accumulate `out = cur` first time and
`out = out & cur` afterwards, then `left = right`.  An empty chain
returns the loop variable `out = None`. -/
def evalChain (left : EnvVal) (out : Option Value) :
    List (CmpTag × PyExpr) → (String → Option EnvVal) → Except Err EnvVal
  | [], _ =>
    .ok (match out with
         | none => .val (.scalar .noneS)
         | some v => .val v)
  | (op, comp) :: rest, env => do
    let right ← evalNode comp env
    let cur ← compareStep op left right
    let acc ←
      match out with
      | none => Except.ok cur
      | some o => bitAnd o cur
    evalChain right (some acc) rest env

end

/-- Top-level result normalization of `eval_expr`: boolean vectors pass
through, non-boolean vectors and non-boolean scalars fail, scalar
booleans broadcast to the row count. -/
def coerceResult (r : EnvVal) (nrows : Nat) : Except Err (List Bool) :=
  match r with
  | .val (.vector (.boolV bs)) => .ok bs
  | .val (.vector (.numV _)) => .error (.exprError .nonBooleanVector)
  | .val (.scalar (.boolS b)) => .ok (List.replicate nrows b)
  | _ => .error (.exprError .nonBooleanResult)

/-- `eval_expr`: missing-column check over the referenced names first,
then evaluation, then boolean coercion.  The returned mask is the
boolean Series as a list of flags.  (The source binds the filter result
to a local `missing`; it is inlined here.) -/
def eval_expr (compiled : CompiledExpr) (df : Table) : Except Err (List Bool) :=
  if (compiled.names.filter (fun c => !(df.hasCol c))).isEmpty then
    match evalNode compiled.ast_tree (buildEnv compiled.names df) with
    | .error e => .error e
    | .ok r => coerceResult r df.nrows
  else
    .error (.exprError (.missingColumns
      (compiled.names.filter (fun c => !(df.hasCol c)))))

/-! ### Filter stage (`filters.py`) -/

/-- Row selection `df.loc[mask]`. -/
def maskFilter (xs : List α) (mask : List Bool) : List α :=
  (List.zip xs mask).filterMap (fun p => if p.2 then some p.1 else none)

def Vec.select (v : Vec) (mask : List Bool) : Vec :=
  match v with
  | .numV xs => .numV (maskFilter xs mask)
  | .boolV xs => .boolV (maskFilter xs mask)

def selectRows (df : Table) (mask : List Bool) : Table :=
  { nrows := mask.count true
    cols := df.cols.map (fun p => (p.1, p.2.select mask)) }

/-- The summary dict built by `filter_by_expr`. -/
structure Summary where
  expr : String
  N_total : Nat
  N_pass : Nat
  pass_rate : Rat
deriving DecidableEq, Repr

/-- `N_pass = int(mask.sum())`, `pass_rate = float(mask.mean()) if
len(df) else 0.0`. -/
def mkSummary (expr : String) (df : Table) (mask : List Bool) : Summary :=
  { expr := expr
    N_total := df.nrows
    N_pass := mask.count true
    pass_rate :=
      if df.nrows = 0 then 0
      else (mask.count true : Rat) / (mask.length : Rat) }

/-- `filter_by_expr`: compile, evaluate, select rows (as a fresh copy),
summarize. -/
def filter_by_expr (df : Table) (expr : String) (parsed : Except String PyExpr) :
    Except Err (Table × Summary) :=
  match compile_expr expr parsed with
  | .error e => .error e
  | .ok compiled =>
    match eval_expr compiled df with
    | .error e => .error e
    | .ok mask => .ok (selectRows df mask, mkSummary expr df mask)

/-! ### Invariants: result lengths and error provenance -/

/-- Vectors flowing through evaluation all have the table's row count. -/
def ValWF (N : Nat) : Value → Prop
  | .scalar _ => True
  | .vector w => w.len = N

def EnvValWF (N : Nat) : EnvVal → Prop
  | .val v => ValWF N v
  | .func _ => True

def OptValWF (N : Nat) : Option Value → Prop
  | none => True
  | some v => ValWF N v

def EnvWF (env : String → Option EnvVal) (N : Nat) : Prop :=
  ∀ id v, env id = some v → EnvValWF N v

/-- Only the dedicated check at the top of `eval_expr` raises the
missing-columns `ExprError`. -/
def Err.isMissingColumns : Err → Bool
  | .exprError (.missingColumns _) => true
  | _ => false

/-- The result is not a missing-columns failure. -/
def errNotMissing (r : Except Err α) : Prop :=
  ∀ er, r = .error er → er.isMissingColumns = false

theorem errNotMissing_ok {x : α} : errNotMissing (Except.ok x : Except Err α) := by
  intro er h
  cases h

theorem errNotMissing_host {k : String} :
    errNotMissing (Except.error (Err.hostError k) : Except Err α) := by
  intro er h
  cases h
  rfl

theorem Vec.toRats_length (v : Vec) : v.toRats.length = v.len := by
  cases v <;> simp [Vec.toRats, Vec.len]

theorem mapE_ok_length {f : α → Except Err β} {xs : List α} {ys : List β}
    (h : mapE f xs = .ok ys) : ys.length = xs.length := by
  induction xs generalizing ys with
  | nil => cases h; rfl
  | cons x xs ih =>
    simp only [mapE] at h
    cases hx : f x with
    | error e => rw [hx] at h; cases h
    | ok y =>
      rw [hx] at h
      cases hxs : mapE f xs with
      | error e => rw [hxs] at h; cases h
      | ok ys0 =>
        rw [hxs] at h
        cases h
        simp [ih hxs]

theorem mapE_err {f : α → Except Err β} {xs : List α}
    (hf : ∀ x, errNotMissing (f x)) : errNotMissing (mapE f xs) := by
  induction xs with
  | nil => exact errNotMissing_ok
  | cons x xs ih =>
    intro er h
    simp only [mapE] at h
    cases hx : f x with
    | error e =>
      rw [hx] at h
      cases h
      exact hf x _ hx
    | ok y =>
      rw [hx] at h
      cases hxs : mapE f xs with
      | error e => rw [hxs] at h; cases h; exact ih _ hxs
      | ok ys => rw [hxs] at h; cases h

theorem zipWithE_ok_length {f : α → β → Except Err γ} {xs : List α}
    {ys : List β} {zs : List γ} (h : zipWithE f xs ys = .ok zs) :
    zs.length = xs.length := by
  induction xs generalizing ys zs with
  | nil =>
    cases ys with
    | nil => cases h; rfl
    | cons y ys => cases h
  | cons x xs ih =>
    cases ys with
    | nil => cases h
    | cons y ys =>
      simp only [zipWithE] at h
      cases hx : f x y with
      | error e => rw [hx] at h; cases h
      | ok z =>
        rw [hx] at h
        cases hxs : zipWithE f xs ys with
        | error e => rw [hxs] at h; cases h
        | ok zs0 =>
          rw [hxs] at h
          cases h
          simp [ih hxs]

theorem zipWithE_err {f : α → β → Except Err γ} {xs : List α} {ys : List β}
    (hf : ∀ x y, errNotMissing (f x y)) : errNotMissing (zipWithE f xs ys) := by
  induction xs generalizing ys with
  | nil =>
    cases ys with
    | nil => exact errNotMissing_ok
    | cons y ys => exact errNotMissing_host
  | cons x xs ih =>
    intro er h
    cases ys with
    | nil => cases h; rfl
    | cons y ys =>
      simp only [zipWithE] at h
      cases hx : f x y with
      | error e => rw [hx] at h; cases h; exact hf x y _ hx
      | ok z =>
        rw [hx] at h
        cases hxs : zipWithE f xs ys with
        | error e => rw [hxs] at h; cases h; exact ih _ hxs
        | ok zs => rw [hxs] at h; cases h

theorem ratZpow_err (q : Rat) (e : Int) : errNotMissing (ratZpow q e) := by
  intro er h
  unfold ratZpow at h
  repeat' split at h
  all_goals cases h <;> rfl

theorem numDiv_err (a b : PyNum) : errNotMissing (numDiv a b) := by
  intro er h
  unfold numDiv at h
  split at h
  all_goals cases h <;> rfl

theorem numPow_err (a b : PyNum) : errNotMissing (numPow a b) := by
  intro er h
  unfold numPow at h
  split at h
  · split at h
    · cases h
    · cases hz : ratZpow _ _ with
      | error e0 =>
        rw [hz] at h
        cases h
        exact ratZpow_err _ _ _ hz
      | ok r => rw [hz] at h; cases h
  · cases hz : ratZpow _ _ with
    | error e0 =>
      rw [hz] at h
      cases h
      exact ratZpow_err _ _ _ hz
    | ok r => rw [hz] at h; cases h
  · split at h
    · cases hz : ratZpow _ _ with
      | error e0 =>
        rw [hz] at h
        cases h
        exact ratZpow_err _ _ _ hz
      | ok r => rw [hz] at h; cases h
    · cases h; rfl

theorem arithScalar_err (t : BinTag) (a b : PyNum) : errNotMissing (arithScalar t a b) := by
  cases t <;> simp only [arithScalar]
  · exact errNotMissing_ok
  · exact errNotMissing_ok
  · exact errNotMissing_ok
  · exact numDiv_err a b
  · exact numPow_err a b
  · exact errNotMissing_host

theorem arithRat_err (t : BinTag) (x y : Rat) : errNotMissing (arithRat t x y) := by
  intro er h
  cases t <;> simp only [arithRat] at h
  · cases h
  · cases h
  · cases h
  · split at h
    all_goals cases h <;> rfl
  · split at h
    · exact ratZpow_err _ _ _ h
    · cases h; rfl
  · cases h; rfl

theorem except_map_err {f : α → β} {r : Except Err α}
    (hr : errNotMissing r) : errNotMissing (r.map f) := by
  intro er h
  cases r with
  | error e => cases h; exact hr _ rfl
  | ok x => cases h

theorem except_map_ok {f : α → β} {r : Except Err α} {y : β}
    (h : r.map f = .ok y) : ∃ x, r = .ok x ∧ y = f x := by
  cases r with
  | error e => cases h
  | ok x => cases h; exact ⟨x, rfl, rfl⟩

theorem binArith_err (t : BinTag) (a b : Value) : errNotMissing (binArith t a b) := by
  cases a with
  | scalar x =>
    cases b with
    | scalar y =>
      simp only [binArith]
      cases x.toNum? <;> cases y.toNum?
      all_goals first
        | exact errNotMissing_host
        | exact except_map_err (arithScalar_err _ _ _)
    | vector v =>
      simp only [binArith]
      cases x.toNum? with
      | none => exact errNotMissing_host
      | some nx => exact except_map_err (mapE_err (fun y => arithRat_err _ _ _))
  | vector v =>
    cases b with
    | scalar y =>
      simp only [binArith]
      cases y.toNum? with
      | none => exact errNotMissing_host
      | some ny => exact except_map_err (mapE_err (fun x => arithRat_err _ _ _))
    | vector w =>
      simp only [binArith]
      exact except_map_err (zipWithE_err (fun x y => arithRat_err _ _ _))

/-- Arithmetic preserves the row count of vector results. -/
theorem binArith_wf {N : Nat} {t : BinTag} {a b c : Value}
    (ha : ValWF N a) (hb : ValWF N b) (h : binArith t a b = .ok c) : ValWF N c := by
  cases a with
  | scalar x =>
    cases b with
    | scalar y =>
      simp only [binArith] at h
      split at h
      · obtain ⟨r, hr, hc⟩ := except_map_ok h
        subst hc
        trivial
      · cases h
    | vector v =>
      simp only [binArith] at h
      split at h
      · obtain ⟨l, hl, hc⟩ := except_map_ok h
        subst hc
        simpa [ValWF, Vec.len, mapE_ok_length hl, Vec.toRats_length] using hb
      · cases h
  | vector v =>
    cases b with
    | scalar y =>
      simp only [binArith] at h
      split at h
      · obtain ⟨l, hl, hc⟩ := except_map_ok h
        subst hc
        simpa [ValWF, Vec.len, mapE_ok_length hl, Vec.toRats_length] using ha
      · cases h
    | vector w =>
      simp only [binArith] at h
      obtain ⟨l, hl, hc⟩ := except_map_ok h
      subst hc
      simpa [ValWF, Vec.len, zipWithE_ok_length hl, Vec.toRats_length] using ha

/-- Combined invariant for a value-producing step: successful values
keep the row count, failures are never the missing-columns error. -/
def RWF (N : Nat) (r : Except Err Value) : Prop :=
  (∀ v, r = .ok v → ValWF N v) ∧ errNotMissing r

def REnvWF (N : Nat) (r : Except Err EnvVal) : Prop :=
  (∀ v, r = .ok v → EnvValWF N v) ∧ errNotMissing r

theorem RWF_okScalar {N : Nat} {s : Scalar} : RWF N (.ok (.scalar s)) := by
  constructor
  · intro v hv
    cases hv
    trivial
  · exact errNotMissing_ok

theorem RWF_error {N : Nat} {er : Err} (h : er.isMissingColumns = false) :
    RWF N (.error er) := by
  constructor
  · intro v hv
    cases hv
  · intro er0 h0
    cases h0
    exact h

theorem cmpScalar_err (t : CmpTag) (x y : Scalar) : errNotMissing (cmpScalar t x y) := by
  intro er h
  unfold cmpScalar at h
  repeat' split at h
  all_goals cases h <;> rfl

theorem compareOp_inv {N : Nat} {t : CmpTag} {a b : Value}
    (ha : ValWF N a) (hb : ValWF N b) : RWF N (compareOp t a b) := by
  constructor
  · intro w hw
    unfold compareOp at hw
    split at hw
    · cases hw
    · split at hw
      · obtain ⟨r, hr, hc⟩ := except_map_ok hw
        subst hc
        trivial
      · split at hw
        · cases hw
          simpa [ValWF, Vec.len, Vec.toRats_length] using hb
        · split at hw
          · cases hw
            simpa [ValWF, Vec.len] using hb
          · cases hw
            simpa [ValWF, Vec.len] using hb
          · cases hw
      · split at hw
        · cases hw
          simpa [ValWF, Vec.len, Vec.toRats_length] using ha
        · split at hw
          · cases hw
            simpa [ValWF, Vec.len] using ha
          · cases hw
            simpa [ValWF, Vec.len] using ha
          · cases hw
      · obtain ⟨l, hl, hc⟩ := except_map_ok hw
        subst hc
        simpa [ValWF, Vec.len, zipWithE_ok_length hl, Vec.toRats_length] using ha
  · intro er h
    unfold compareOp at h
    split at h
    · cases h
      rfl
    · split at h
      · exact except_map_err (cmpScalar_err _ _ _) _ h
      · split at h
        · cases h
        · split at h <;> cases h <;> rfl
      · split at h
        · cases h
        · split at h <;> cases h <;> rfl
      · exact except_map_err (zipWithE_err (fun x y => errNotMissing_ok)) _ h

theorem zipBool_inv {N : Nat} {f : Bool → Bool → Bool} {xs ys : List Bool}
    (hx : xs.length = N) :
    (∀ zs, zipBool f xs ys = .ok zs → zs.length = N) ∧ errNotMissing (zipBool f xs ys) := by
  constructor
  · intro zs hz
    unfold zipBool at hz
    split at hz
    · cases hz
      simp_all [List.length_zipWith]
    · cases hz
  · intro er h
    unfold zipBool at h
    split at h
    · cases h
    · cases h
      rfl

theorem bitAnd_inv {N : Nat} {a b : Value}
    (ha : ValWF N a) (hb : ValWF N b) : RWF N (bitAnd a b) := by
  unfold bitAnd
  split
  · exact RWF_okScalar
  · split
    · exact RWF_okScalar
    · exact RWF_error rfl
  case _ x ys =>
    constructor
    · intro v hv
      cases hv
      simpa [ValWF, Vec.len] using hb
    · exact errNotMissing_ok
  case _ xs y =>
    constructor
    · intro v hv
      cases hv
      simpa [ValWF, Vec.len] using ha
    · exact errNotMissing_ok
  case _ xs ys =>
    have hx : xs.length = N := by simpa [ValWF, Vec.len] using ha
    constructor
    · intro v hv
      obtain ⟨l, hl, hc⟩ := except_map_ok hv
      subst hc
      simpa [ValWF, Vec.len] using (zipBool_inv hx).1 l hl
    · exact except_map_err (zipBool_inv hx).2
  · exact RWF_error rfl

theorem bitOr_inv {N : Nat} {a b : Value}
    (ha : ValWF N a) (hb : ValWF N b) : RWF N (bitOr a b) := by
  unfold bitOr
  split
  · exact RWF_okScalar
  · split
    · exact RWF_okScalar
    · exact RWF_error rfl
  case _ x ys =>
    constructor
    · intro v hv
      cases hv
      simpa [ValWF, Vec.len] using hb
    · exact errNotMissing_ok
  case _ xs y =>
    constructor
    · intro v hv
      cases hv
      simpa [ValWF, Vec.len] using ha
    · exact errNotMissing_ok
  case _ xs ys =>
    have hx : xs.length = N := by simpa [ValWF, Vec.len] using ha
    constructor
    · intro v hv
      obtain ⟨l, hl, hc⟩ := except_map_ok hv
      subst hc
      simpa [ValWF, Vec.len] using (zipBool_inv hx).1 l hl
    · exact except_map_err (zipBool_inv hx).2
  · exact RWF_error rfl

theorem pyInvert_inv {N : Nat} {a : Value} (ha : ValWF N a) : RWF N (pyInvert a) := by
  unfold pyInvert
  split
  case _ xs =>
    constructor
    · intro v hv
      cases hv
      simpa [ValWF, Vec.len] using ha
    · exact errNotMissing_ok
  · exact RWF_okScalar
  · exact RWF_okScalar
  · exact RWF_error rfl

theorem pyPos_inv {N : Nat} {a : Value} (ha : ValWF N a) : RWF N (pyPos a) := by
  unfold pyPos
  split
  · exact RWF_okScalar
  · exact RWF_okScalar
  · exact RWF_okScalar
  case _ xs =>
    constructor
    · intro v hv
      cases hv
      simpa [ValWF, Vec.len] using ha
    · exact errNotMissing_ok
  case _ xs =>
    constructor
    · intro v hv
      cases hv
      simpa [ValWF, Vec.len] using ha
    · exact errNotMissing_ok
  · exact RWF_error rfl

theorem pyNeg_inv {N : Nat} {a : Value} (ha : ValWF N a) : RWF N (pyNeg a) := by
  unfold pyNeg
  split
  · exact RWF_okScalar
  · exact RWF_okScalar
  · exact RWF_okScalar
  case _ xs =>
    constructor
    · intro v hv
      cases hv
      simpa [ValWF, Vec.len] using ha
    · exact errNotMissing_ok
  case _ xs =>
    constructor
    · intro v hv
      cases hv
      simpa [ValWF, Vec.len] using ha
    · exact errNotMissing_ok
  · exact RWF_error rfl

theorem npAbs_inv {N : Nat} {a : Value} (ha : ValWF N a) : RWF N (npAbs a) := by
  unfold npAbs
  split
  · exact RWF_okScalar
  · exact RWF_okScalar
  · exact RWF_okScalar
  · exact RWF_error rfl
  case _ xs =>
    constructor
    · intro v hv
      cases hv
      simpa [ValWF, Vec.len] using ha
    · exact errNotMissing_ok
  case _ xs =>
    constructor
    · intro v hv
      cases hv
      simpa [ValWF, Vec.len] using ha
    · exact errNotMissing_ok

@[simp] theorem bindE_ok (x : α) (f : α → Except Err β) :
    (Except.ok x >>= f) = f x := rfl

@[simp] theorem bindE_err (e : Err) (f : α → Except Err β) :
    ((Except.error e : Except Err α) >>= f) = .error e := rfl

theorem REnvWF_okVal {N : Nat} {v : Value} (h : ValWF N v) : REnvWF N (.ok (.val v)) := by
  constructor
  · intro w hw
    cases hw
    exact h
  · exact errNotMissing_ok

theorem REnvWF_ok {N : Nat} {v : EnvVal} (h : EnvValWF N v) : REnvWF N (.ok v) := by
  constructor
  · intro w hw
    cases hw
    exact h
  · exact errNotMissing_ok

theorem REnvWF_error {N : Nat} {er : Err} (h : er.isMissingColumns = false) :
    REnvWF N (.error er) := by
  constructor
  · intro v hv
    cases hv
  · intro er0 h0
    cases h0
    exact h

theorem REnvWF_of_RWF {N : Nat} {r : Except Err Value} (h : RWF N r) :
    REnvWF N (r.map EnvVal.val) := by
  cases r with
  | error e =>
    exact REnvWF_error (h.2 e rfl)
  | ok v =>
    exact REnvWF_okVal (h.1 v rfl)

theorem evalConst_inv {N : Nat} (c : Const) : REnvWF N (evalConst c) := by
  cases c
  · exact REnvWF_okVal trivial
  · exact REnvWF_okVal trivial
  · exact REnvWF_okVal trivial
  · exact REnvWF_okVal trivial
  · exact REnvWF_error rfl

theorem evalUnary_inv {N : Nat} {t : UnTag} {v : EnvVal}
    (hv : EnvValWF N v) : REnvWF N (evalUnary t v) := by
  unfold evalUnary
  split
  · exact REnvWF_error rfl
  · exact REnvWF_of_RWF (pyInvert_inv hv)
  · exact REnvWF_of_RWF (pyPos_inv hv)
  · exact REnvWF_of_RWF (pyNeg_inv hv)
  · exact REnvWF_error rfl

theorem evalBinary_inv {N : Nat} {t : BinTag} {a b : EnvVal}
    (ha : EnvValWF N a) (hb : EnvValWF N b) : REnvWF N (evalBinary t a b) := by
  unfold evalBinary
  split
  · exact REnvWF_error rfl
  · split
    · exact REnvWF_of_RWF ⟨fun c hc => binArith_wf ha hb hc, binArith_err _ _ _⟩
    · exact REnvWF_error rfl

theorem boolStep_inv {N : Nat} {t : BoolTag} {a b : EnvVal}
    (ha : EnvValWF N a) (hb : EnvValWF N b) : REnvWF N (boolStep t a b) := by
  unfold boolStep
  split
  · cases t
    · exact REnvWF_of_RWF (bitAnd_inv ha hb)
    · exact REnvWF_of_RWF (bitOr_inv ha hb)
  · exact REnvWF_error rfl

theorem foldBool_inv {N : Nat} {t : BoolTag} :
    ∀ (ys : List EnvVal) (x : EnvVal), EnvValWF N x → (∀ y ∈ ys, EnvValWF N y) →
      REnvWF N (foldBool t x ys) := by
  intro ys
  induction ys with
  | nil =>
    intro x hx _
    exact REnvWF_ok hx
  | cons y ys ih =>
    intro x hx hys
    simp only [foldBool]
    cases h : boolStep t x y with
    | error er =>
      simp only [h, bindE_err]
      exact REnvWF_error ((boolStep_inv hx (hys y (by simp))).2 er h)
    | ok z =>
      simp only [h, bindE_ok]
      exact ih z ((boolStep_inv hx (hys y (by simp))).1 z h)
        (fun w hw => hys w (by simp [hw]))

theorem compareStep_inv {N : Nat} {t : CmpTag} {a b : EnvVal}
    (ha : EnvValWF N a) (hb : EnvValWF N b) : RWF N (compareStep t a b) := by
  unfold compareStep
  split
  · exact RWF_error rfl
  · split
    · exact compareOp_inv ha hb
    · exact RWF_error rfl

theorem applyCallable_inv {N : Nat} {f a : EnvVal}
    (ha : EnvValWF N a) : REnvWF N (applyCallable f a) := by
  unfold applyCallable
  split
  · split
    · exact REnvWF_of_RWF (npAbs_inv ha)
    · exact REnvWF_error rfl
  · exact REnvWF_error rfl

/-- Invariant for list evaluation results. -/
def RListWF (N : Nat) (r : Except Err (List EnvVal)) : Prop :=
  (∀ rs, r = .ok rs → ∀ x ∈ rs, EnvValWF N x) ∧ errNotMissing r

/-- Master invariant of the evaluator: with a well-formed environment,
every vector produced has the table's row count and no failure is the
missing-columns error. -/
theorem evalNode_inv (N : Nat) :
    ∀ (e : PyExpr) (env : String → Option EnvVal),
      EnvWF env N → REnvWF N (evalNode e env) := by
  intro e0 env0
  refine evalNode.induct
    (fun e env => EnvWF env N → REnvWF N (evalNode e env))
    (fun left out ps env =>
      EnvWF env N → EnvValWF N left → OptValWF N out →
        REnvWF N (evalChain left out ps env))
    (fun es env => EnvWF env N → RListWF N (evalNodeList es env))
    ?_ ?_ ?_ ?_ ?_ ?_ ?_ ?_ ?_ ?_ ?_ ?_ ?_ ?_ ?_ ?_ e0 env0
  · intro c env _
    simp only [evalNode]
    exact evalConst_inv c
  · intro id env h _
    simp only [evalNode, h]
    exact REnvWF_error rfl
  · intro id env v h hEnv
    simp only [evalNode, h]
    exact REnvWF_ok (hEnv id v h)
  · intro op e env ih hEnv
    obtain ⟨hok, herr⟩ := ih hEnv
    simp only [evalNode]
    cases h : evalNode e env with
    | error er =>
      simp only [h, bindE_err]
      exact REnvWF_error (herr er h)
    | ok v =>
      simp only [h, bindE_ok]
      exact evalUnary_inv (hok v h)
  · intro op l r env ihl ihr hEnv
    obtain ⟨hokl, herrl⟩ := ihl hEnv
    obtain ⟨hokr, herrr⟩ := ihr hEnv
    simp only [evalNode]
    cases hl : evalNode l env with
    | error er =>
      simp only [hl, bindE_err]
      exact REnvWF_error (herrl er hl)
    | ok a =>
      simp only [hl, bindE_ok]
      cases hr : evalNode r env with
      | error er =>
        simp only [hr, bindE_err]
        exact REnvWF_error (herrr er hr)
      | ok b =>
        simp only [hr, bindE_ok]
        exact evalBinary_inv (hokl a hl) (hokr b hr)
  · intro op vs env ih hEnv
    obtain ⟨hok, herr⟩ := ih hEnv
    simp only [evalNode]
    cases h : evalNodeList vs env with
    | error er =>
      simp only [h, bindE_err]
      exact REnvWF_error (herr er h)
    | ok xs =>
      simp only [h, bindE_ok]
      cases xs with
      | nil => exact REnvWF_error rfl
      | cons x rest =>
        exact foldBool_inv rest x (hok _ h x (by simp))
          (fun y hy => hok _ h y (by simp [hy]))
  · intro l pairs env ihl ih2 hEnv
    obtain ⟨hok, herr⟩ := ihl hEnv
    simp only [evalNode]
    cases h : evalNode l env with
    | error er =>
      simp only [h, bindE_err]
      exact REnvWF_error (herr er h)
    | ok v =>
      simp only [h, bindE_ok]
      exact ih2 v hEnv (hok v h) trivial
  · intro args numKeywords env fname h _
    simp only [evalNode, h]
    exact REnvWF_error rfl
  · intro numKeywords env fname v h _
    simp only [evalNode, h]
    exact REnvWF_error rfl
  · intro numKeywords env fname v h e es ih hEnv
    obtain ⟨hok, herr⟩ := ih hEnv
    simp only [evalNode, h]
    cases ha : evalNode e env with
    | error er =>
      simp only [ha, bindE_err]
      exact REnvWF_error (herr er ha)
    | ok arg =>
      simp only [ha, bindE_ok]
      exact applyCallable_inv (hok arg ha)
  · intro fn args numKeywords env hne _
    cases fn with
    | name fname => exact absurd rfl (hne fname)
    | constant c =>
      simp only [evalNode]
      exact REnvWF_error rfl
    | unaryOp op e =>
      simp only [evalNode]
      exact REnvWF_error rfl
    | binOp op l r =>
      simp only [evalNode]
      exact REnvWF_error rfl
    | boolOp op vs =>
      simp only [evalNode]
      exact REnvWF_error rfl
    | compare l ps =>
      simp only [evalNode]
      exact REnvWF_error rfl
    | call f a k =>
      simp only [evalNode]
      exact REnvWF_error rfl
    | other kind cs =>
      simp only [evalNode]
      exact REnvWF_error rfl
  · intro kind children env _
    simp only [evalNode]
    exact REnvWF_error rfl
  · intro env _
    constructor
    · intro rs hrs x hx
      cases hrs
      cases hx
    · exact errNotMissing_ok
  · intro e es env ih1 ih3 hEnv
    obtain ⟨hok, herr⟩ := ih1 hEnv
    obtain ⟨hok3, herr3⟩ := ih3 hEnv
    simp only [evalNodeList]
    cases h : evalNode e env with
    | error er =>
      simp only [h, bindE_err]
      constructor
      · intro rs hrs
        cases hrs
      · intro er0 h0
        cases h0
        exact herr er h
    | ok v =>
      simp only [h, bindE_ok]
      cases hs : evalNodeList es env with
      | error er =>
        simp only [hs, bindE_err]
        constructor
        · intro rs hrs
          cases hrs
        · intro er0 h0
          cases h0
          exact herr3 er hs
      | ok vs =>
        simp only [hs, bindE_ok]
        constructor
        · intro rs hrs x hx
          cases hrs
          rcases List.mem_cons.mp hx with h1 | h1
          · rw [h1]
            exact hok v h
          · exact hok3 vs hs x h1
        · exact errNotMissing_ok
  · intro left out env _ _ hout
    simp only [evalChain]
    cases out with
    | none => exact REnvWF_okVal trivial
    | some v => exact REnvWF_okVal hout
  · intro left out op comp rest env ih1 ih2 hEnv hleft hout
    obtain ⟨hok, herr⟩ := ih1 hEnv
    simp only [evalChain]
    cases h : evalNode comp env with
    | error er =>
      simp only [h, bindE_err]
      exact REnvWF_error (herr er h)
    | ok right =>
      simp only [h, bindE_ok]
      obtain ⟨cok, cerr⟩ := compareStep_inv (t := op) hleft (hok right h)
      cases hc : compareStep op left right with
      | error er =>
        simp only [hc, bindE_err]
        exact REnvWF_error (cerr er hc)
      | ok cur =>
        simp only [hc, bindE_ok]
        cases out with
        | none =>
          simp only [bindE_ok]
          exact ih2 right cur hEnv (hok right h) (cok cur hc)
        | some o =>
          obtain ⟨aok, aerr⟩ := bitAnd_inv (a := o) (b := cur) hout (cok cur hc)
          cases hb : bitAnd o cur with
          | error er =>
            simp only [hb, bindE_err]
            exact REnvWF_error (aerr er hb)
          | ok acc =>
            simp only [hb, bindE_ok]
            exact ih2 right acc hEnv (hok right h) (aok acc hb)

theorem lookupPairs_mem {ps : List (String × Vec)} {c : String} {v : Vec}
    (h : lookupPairs ps c = some v) : (c, v) ∈ ps := by
  induction ps with
  | nil => cases h
  | cons p ps ih =>
    obtain ⟨p1, p2⟩ := p
    simp only [lookupPairs] at h
    split at h
    · cases h
      rename_i hp
      subst hp
      exact List.mem_cons_self _ _
    · exact List.mem_cons_of_mem _ (ih h)

/-- A well-formed table yields a well-formed environment: every bound
column has the row count. -/
theorem buildEnv_wf {df : Table} (hwf : df.WF) (names : List String) :
    EnvWF (buildEnv names df) df.nrows := by
  intro id v h
  unfold buildEnv at h
  split at h
  · cases h
    trivial
  · split at h
    · cases hl : df.lookup id with
      | none => rw [hl] at h; cases h
      | some w =>
        rw [hl] at h
        cases h
        exact hwf _ (lookupPairs_mem hl)
    · cases h

/-- Coercion never produces the missing-columns error. -/
theorem coerceResult_err {r : EnvVal} {n : Nat} : errNotMissing (coerceResult r n) := by
  intro er h
  unfold coerceResult at h
  split at h
  all_goals cases h <;> rfl

/-- If the result vector coerces successfully it has the requested
length or is the broadcast of a scalar. -/
theorem coerceResult_length {N : Nat} {r : EnvVal} {mask : List Bool}
    (hr : EnvValWF N r) (h : coerceResult r N = .ok mask) : mask.length = N := by
  unfold coerceResult at h
  split at h
  · cases h
    simpa [EnvValWF, ValWF, Vec.len] using hr
  · cases h
  · cases h
    simp
  · cases h

/-- C4 core: a successful evaluation returns a mask of the table's row
count. -/
theorem eval_expr_length {compiled : CompiledExpr} {df : Table} {mask : List Bool}
    (hwf : df.WF) (h : eval_expr compiled df = .ok mask) : mask.length = df.nrows := by
  unfold eval_expr at h
  split at h
  · cases hr : evalNode compiled.ast_tree (buildEnv compiled.names df) with
    | error er =>
      simp only [hr] at h
      cases h
    | ok r =>
      simp only [hr] at h
      have hrw := (evalNode_inv df.nrows _ _ (buildEnv_wf hwf compiled.names)).1 r hr
      exact coerceResult_length hrw h
  · cases h

/-- C5 core: `eval_expr` fails with the missing-columns error exactly
when the filter of absent referenced names is non-empty, and the error
carries that very list. -/
theorem eval_expr_missing_cases {df : Table} (hwf : df.WF) (compiled : CompiledExpr) :
    (¬ (compiled.names.filter (fun c => !(df.hasCol c))).isEmpty →
      eval_expr compiled df =
        .error (.exprError (.missingColumns
          (compiled.names.filter (fun c => !(df.hasCol c)))))) ∧
    ((compiled.names.filter (fun c => !(df.hasCol c))).isEmpty →
      errNotMissing (eval_expr compiled df)) := by
  constructor
  · intro hne
    unfold eval_expr
    split
    · exact absurd (by assumption) hne
    · rfl
  · intro hempty
    unfold eval_expr
    split
    · cases hr : evalNode compiled.ast_tree (buildEnv compiled.names df) with
      | error er =>
        simp only [hr]
        intro er0 h0
        cases h0
        exact (evalNode_inv df.nrows _ _ (buildEnv_wf hwf compiled.names)).2 er hr
      | ok r =>
        simp only [hr]
        exact coerceResult_err
    · exact absurd hempty (by assumption)

/-- If evaluation fails with the missing-columns error, the reported
list is exactly the filter of absent referenced names. -/
theorem eval_expr_missing_eq {df : Table} {compiled : CompiledExpr} {m : List String}
    (hwf : df.WF)
    (h : eval_expr compiled df = .error (.exprError (.missingColumns m))) :
    m = compiled.names.filter (fun c => !(df.hasCol c)) := by
  by_cases hempty : (compiled.names.filter (fun c => !(df.hasCol c))).isEmpty
  · have := (eval_expr_missing_cases hwf compiled).2 hempty _ h
    simp [Err.isMissingColumns] at this
  · have heq := (eval_expr_missing_cases hwf compiled).1 hempty
    rw [heq] at h
    cases h
    rfl

/-! ### Fixtures: the spec's worked examples -/

/-- The spec's example table: `dem_h = [100, 100]`,
`h_te_best_fit = [98, 50]`. -/
def exampleTable : Table :=
  { nrows := 2
    cols := [("dem_h", .numV [100, 100]), ("h_te_best_fit", .numV [98, 50])] }

theorem exampleTable_wf : exampleTable.WF := by
  intro p hp
  simp only [exampleTable, List.mem_cons, List.not_mem_nil, or_false] at hp
  rcases hp with h | h <;> subst h <;> rfl

/-- Parse tree of `"foo > 1"`. -/
def fooExpr : PyExpr := .compare (.name "foo") [(.gt, .constant (.intC 1))]

/-- Parse tree of `"dem_h - h_te_best_fit"`. -/
def diffExpr : PyExpr := .binOp .sub (.name "dem_h") (.name "h_te_best_fit")

/-- Parse tree of `"abs(dem_h - h_te_best_fit) <= 3"`. -/
def absExpr : PyExpr :=
  .compare (.call (.name "abs") [diffExpr] 0) [(.le, .constant (.intC 3))]

/-! ### Claims -/

/-- C4: for every validated expression and every well-formed table
containing all its referenced columns, a successful `eval_expr` returns
a mask whose length equals the table's row count.  (Success entails the
column check passed; failures return no mask at all.) -/
theorem c4_mask_length_eq_row_count
    (compiled : CompiledExpr) (df : Table) (mask : List Bool)
    (hwf : df.WF) (h : eval_expr compiled df = .ok mask) :
    mask.length = df.nrows :=
  eval_expr_length hwf h

theorem c4_mask_length_eq_row_count_witness :
    exampleTable.WF ∧
      eval_expr ⟨"True", .constant (.boolC true), []⟩ exampleTable = .ok [true, true] ∧
      ([true, true] : List Bool).length = exampleTable.nrows :=
  ⟨exampleTable_wf, rfl,
    c4_mask_length_eq_row_count ⟨"True", .constant (.boolC true), []⟩ exampleTable
      [true, true] exampleTable_wf rfl⟩

/-- C5: evaluation fails with the missing-columns `ExprError` exactly
when some referenced column is absent; the reported list contains all
absent referenced names (not just the first); and `"foo > 1"` against a
table without column `foo` reports exactly `["foo"]`. -/
theorem c5_unknown_column_errors (compiled : CompiledExpr) (df : Table)
    (hwf : df.WF) :
    ((∃ m, eval_expr compiled df = .error (.exprError (.missingColumns m))) ↔
      ∃ c ∈ compiled.names, ¬ df.hasCol c) ∧
    (∀ m, eval_expr compiled df = .error (.exprError (.missingColumns m)) →
      ∀ c, c ∈ m ↔ (c ∈ compiled.names ∧ ¬ df.hasCol c)) ∧
    (compile_expr "foo > 1" (.ok fooExpr) = .ok ⟨"foo > 1", fooExpr, ["foo"]⟩) ∧
    (¬ df.hasCol "foo" →
      eval_expr ⟨"foo > 1", fooExpr, ["foo"]⟩ df =
        .error (.exprError (.missingColumns ["foo"]))) := by
  have hne : ¬ (compiled.names.filter (fun c => !(df.hasCol c))).isEmpty ↔
      ∃ c ∈ compiled.names, ¬ df.hasCol c := by
    rw [List.isEmpty_iff_eq_nil]
    constructor
    · intro h
      obtain ⟨c, hc⟩ := List.exists_mem_of_ne_nil _ h
      obtain ⟨h1, h2⟩ := List.mem_filter.mp hc
      exact ⟨c, h1, by simpa using h2⟩
    · rintro ⟨c, h1, h2⟩ hnil
      have : c ∈ compiled.names.filter (fun c => !(df.hasCol c)) :=
        List.mem_filter.mpr ⟨h1, by simpa using h2⟩
      simp [hnil] at this
  refine ⟨?_, ?_, rfl, ?_⟩
  · constructor
    · rintro ⟨m, hm⟩
      by_contra hno
      have hempty : (compiled.names.filter (fun c => !(df.hasCol c))).isEmpty := by
        by_contra hcon
        exact hno (hne.mp hcon)
      have := (eval_expr_missing_cases hwf compiled).2 hempty _ hm
      simp [Err.isMissingColumns] at this
    · intro h
      exact ⟨_, (eval_expr_missing_cases hwf compiled).1 (hne.mpr h)⟩
  · intro m hm c
    rw [eval_expr_missing_eq hwf hm, List.mem_filter]
    simp
  · intro hfoo
    have hfalse : df.hasCol "foo" = false := by simpa using hfoo
    have hfilter : (["foo"] : List String).filter (fun c => !(df.hasCol c)) = ["foo"] := by
      simp [List.filter, hfalse]
    have h2 := (eval_expr_missing_cases hwf ⟨"foo > 1", fooExpr, ["foo"]⟩).1
      (by simp only [hfilter]; simp)
    simpa only [hfilter] using h2

theorem c5_unknown_column_errors_witness :
    eval_expr ⟨"foo > 1", fooExpr, ["foo"]⟩ exampleTable =
      .error (.exprError (.missingColumns ["foo"])) :=
  (c5_unknown_column_errors ⟨"foo > 1", fooExpr, ["foo"]⟩ exampleTable
    exampleTable_wf).2.2.2 (by decide)

/-- C3: the top-level coercion of `eval_expr` is strict.  (The spec's
`NonBooleanResultError` taxonomy entry corresponds to the two
`ExprError` raises modelled by `nonBooleanVector` — a vector of
non-boolean dtype, with no truthy coercion — and `nonBooleanResult` —
any non-boolean scalar or other object.)  A scalar boolean broadcasts
to `nrows` copies. -/
theorem c3_strict_boolean_coercion (compiled : CompiledExpr) (df : Table)
    (hm : (compiled.names.filter (fun c => !(df.hasCol c))).isEmpty) :
    (∀ xs, evalNode compiled.ast_tree (buildEnv compiled.names df) =
        .ok (.val (.vector (.numV xs))) →
      eval_expr compiled df = .error (.exprError .nonBooleanVector)) ∧
    (∀ b, evalNode compiled.ast_tree (buildEnv compiled.names df) =
        .ok (.val (.scalar (.boolS b))) →
      eval_expr compiled df = .ok (List.replicate df.nrows b)) ∧
    (∀ s, (∀ b, s ≠ Scalar.boolS b) →
      evalNode compiled.ast_tree (buildEnv compiled.names df) =
        .ok (.val (.scalar s)) →
      eval_expr compiled df = .error (.exprError .nonBooleanResult)) := by
  refine ⟨?_, ?_, ?_⟩
  · intro xs h
    unfold eval_expr
    rw [if_pos hm]
    simp only [h]
    rfl
  · intro b h
    unfold eval_expr
    rw [if_pos hm]
    simp only [h]
    rfl
  · intro s hs h
    unfold eval_expr
    rw [if_pos hm]
    simp only [h]
    cases s with
    | intS n => rfl
    | floatS q => rfl
    | boolS b => exact absurd rfl (hs b)
    | noneS => rfl

theorem c3_strict_boolean_coercion_witness :
    eval_expr ⟨"dem_h - h_te_best_fit", diffExpr, ["dem_h", "h_te_best_fit"]⟩
        exampleTable = .error (.exprError .nonBooleanVector) ∧
    eval_expr ⟨"1", .constant (.intC 1), []⟩ exampleTable =
      .error (.exprError .nonBooleanResult) :=
  ⟨(c3_strict_boolean_coercion
      ⟨"dem_h - h_te_best_fit", diffExpr, ["dem_h", "h_te_best_fit"]⟩
      exampleTable rfl).1 [100 - 98, 100 - 50] rfl,
   (c3_strict_boolean_coercion ⟨"1", .constant (.intC 1), []⟩
      exampleTable rfl).2.2 (.intS 1) (fun b h => by cases h) rfl⟩

/-- C10: a registry function name is removed from the compiled name
set, the environment always binds it to the registry function (the
update overrides any column binding), a `Name` node for it evaluates to
the function — never column data — and it can never appear in a
missing-columns error. -/
theorem c10_abs_resolves_to_function :
    ∀ (expr : String) (t : PyExpr) (c : CompiledExpr),
      compile_expr expr (.ok t) = .ok c →
      "abs" ∉ c.names ∧
      (∀ df : Table, buildEnv c.names df "abs" = some (.func "abs")) ∧
      (∀ df : Table, evalNode (.name "abs") (buildEnv c.names df) = .ok (.func "abs")) ∧
      (∀ (df : Table) (m : List String), df.WF →
        eval_expr c df = .error (.exprError (.missingColumns m)) → "abs" ∉ m) := by
  intro expr t c h
  have hnames : c.names = (collectNames t).dedup.filter
      (fun n => decide (n ∉ allowedFuncNames)) := by
    unfold compile_expr at h
    cases hv : validate t with
    | error e => simp only [hv] at h; cases h
    | ok u => simp only [hv] at h; cases h; rfl
  have habs : "abs" ∉ c.names := by
    rw [hnames]
    intro hmem
    have := (List.mem_filter.mp hmem).2
    simp [allowedFuncNames] at this
  refine ⟨habs, ?_, ?_, ?_⟩
  · intro df
    unfold buildEnv
    rw [if_pos (by simp [allowedFuncNames])]
  · intro df
    simp only [evalNode]
    rw [show buildEnv c.names df "abs" = some (.func "abs") from by
      unfold buildEnv
      rw [if_pos (by simp [allowedFuncNames])]]
  · intro df m hwf hm
    rw [eval_expr_missing_eq hwf hm]
    intro hmem
    exact habs (List.mem_filter.mp hmem).1

theorem c10_abs_resolves_to_function_witness :
    "abs" ∉ (CompiledExpr.mk "abs(dem_h - h_te_best_fit) <= 3" absExpr
        ["dem_h", "h_te_best_fit"]).names ∧
    buildEnv ["dem_h", "h_te_best_fit"] exampleTable "abs" = some (.func "abs") := by
  have h := c10_abs_resolves_to_function "abs(dem_h - h_te_best_fit) <= 3" absExpr
    ⟨"abs(dem_h - h_te_best_fit) <= 3", absExpr, ["dem_h", "h_te_best_fit"]⟩ rfl
  exact ⟨h.1, h.2.1 exampleTable⟩

/-- A zero-row table with a single empty numeric column. -/
def zeroRowTable : Table := { nrows := 0, cols := [("x", .numV [])] }

theorem zeroRowTable_wf : zeroRowTable.WF := by
  intro p hp
  simp only [zeroRowTable, List.mem_cons, List.not_mem_nil, or_false] at hp
  subst hp
  rfl

/-- Parse tree of `"x > 0"`. -/
def xPosExpr : PyExpr := .compare (.name "x") [(.gt, .constant (.intC 0))]

/-- C6: every successful `filter_by_expr` satisfies the stats contract:
`pass_rate = N_pass / N_total` when `N_total > 0` and `0.0` when
`N_total = 0`, `pass_rate ∈ [0, 1]`, `N_pass` counts the true mask
entries; on a zero-row table the result is a zero-row table with
`Stats{0, 0, 0.0}`. -/
theorem c6_filter_stats (df : Table) (expr : String) (parsed : Except String PyExpr)
    (out : Table) (s : Summary) (hwf : df.WF)
    (h : filter_by_expr df expr parsed = .ok (out, s)) :
    (df.nrows ≠ 0 → s.pass_rate = (s.N_pass : Rat) / (s.N_total : Rat)) ∧
    (df.nrows = 0 → s.pass_rate = 0) ∧
    (0 ≤ s.pass_rate ∧ s.pass_rate ≤ 1) ∧
    (∃ c mask, compile_expr expr parsed = .ok c ∧ eval_expr c df = .ok mask ∧
      s.N_pass = mask.count true ∧ s.N_total = df.nrows) ∧
    (df.nrows = 0 → out.nrows = 0 ∧ s = ⟨expr, 0, 0, 0⟩) := by
  unfold filter_by_expr at h
  cases hc : compile_expr expr parsed with
  | error e =>
    simp only [hc] at h
    cases h
  | ok c =>
    simp only [hc] at h
    cases he : eval_expr c df with
    | error e =>
      simp only [he] at h
      cases h
    | ok mask =>
      simp only [he] at h
      cases h
      have hlen : mask.length = df.nrows := eval_expr_length hwf he
      have hcount : mask.count true ≤ mask.length := List.count_le_length _ _
      refine ⟨?_, ?_, ?_, ⟨c, mask, rfl, he, rfl, rfl⟩, ?_⟩
      · intro hnz
        simp only [mkSummary, if_neg hnz, hlen]
      · intro hz
        simp only [mkSummary, if_pos hz]
      · by_cases hz : df.nrows = 0
        · simp [mkSummary, if_pos hz]
        · have hpos : 0 < mask.length := by
            rw [hlen]
            exact Nat.pos_of_ne_zero hz
          constructor
          · simp only [mkSummary, if_neg hz]
            positivity
          · simp only [mkSummary, if_neg hz]
            rw [div_le_one (by exact_mod_cast hpos)]
            exact_mod_cast hcount
      · intro hz
        have hnil : mask = [] := by
          rw [← List.length_eq_zero]
          rw [hlen, hz]
        subst hnil
        refine ⟨rfl, ?_⟩
        simp [mkSummary, if_pos hz, hz]

theorem c6_filter_stats_witness :
    filter_by_expr zeroRowTable "x > 0" (.ok xPosExpr) =
      .ok (selectRows zeroRowTable [], mkSummary "x > 0" zeroRowTable []) ∧
    (selectRows zeroRowTable []).nrows = 0 ∧
    mkSummary "x > 0" zeroRowTable [] = ⟨"x > 0", 0, 0, 0⟩ :=
  ⟨rfl,
    (c6_filter_stats zeroRowTable "x > 0" (.ok xPosExpr) _ _
      zeroRowTable_wf rfl).2.2.2.2 rfl⟩

/-- Left-to-right evaluation of the chain's operands, each exactly once
(the evaluator is pure, so single evaluation is equality of results). -/
def evalOperands : List (CmpTag × PyExpr) → (String → Option EnvVal) →
    Except Err (List (CmpTag × EnvVal))
  | [], _ => .ok []
  | (op, e) :: ps, env => do
    let v ← evalNode e env
    let vs ← evalOperands ps env
    .ok ((op, v) :: vs)

/-- The spec's chained-comparison semantics over already-evaluated
operand values: pairwise comparisons of consecutive operands, folded
left-to-right with the elementwise AND (`a < b < c` becomes
`(a < b) & (b < c)`), the left operand of each step being the previous
step's right operand. -/
def chainedCompareVals : EnvVal → Option Value → List (CmpTag × EnvVal) →
    Except Err EnvVal
  | _, out, [] =>
    .ok (match out with
         | none => .val (.scalar .noneS)
         | some v => .val v)
  | left, out, (op, w) :: rest => do
    let cur ← compareStep op left w
    let acc ←
      match out with
      | none => Except.ok cur
      | some o => bitAnd o cur
    chainedCompareVals w (some acc) rest

theorem evalChain_eq_chainedCompareVals :
    ∀ (ps : List (CmpTag × PyExpr)) (env : String → Option EnvVal)
      (left : EnvVal) (out : Option Value) (pvs : List (CmpTag × EnvVal)),
      evalOperands ps env = .ok pvs →
      evalChain left out ps env = chainedCompareVals left out pvs := by
  intro ps
  induction ps with
  | nil =>
    intro env left out pvs h
    cases h
    rfl
  | cons p ps ih =>
    intro env left out pvs h
    obtain ⟨op, e⟩ := p
    simp only [evalOperands] at h
    cases hv : evalNode e env with
    | error er => rw [hv] at h; cases h
    | ok v =>
      rw [hv] at h
      simp only [bindE_ok] at h
      cases hvs : evalOperands ps env with
      | error er => rw [hvs] at h; cases h
      | ok vs =>
        rw [hvs] at h
        simp only [bindE_ok] at h
        cases h
        simp only [evalChain, chainedCompareVals, hv, bindE_ok]
        cases hcur : compareStep op left v with
        | error er => simp only [hcur, bindE_err]
        | ok cur =>
          simp only [hcur, bindE_ok]
          cases out with
          | none =>
            simp only [bindE_ok]
            exact ih env v (some cur) vs hvs
          | some o =>
            cases hacc : bitAnd o cur with
            | error er => simp only [hacc, bindE_err]
            | ok acc =>
              simp only [hacc, bindE_ok]
              exact ih env v (some acc) vs hvs

/-- Parse tree of `"1 < 2 < 3"`. -/
def chain123 : PyExpr :=
  .compare (.constant (.intC 1))
    [(.lt, .constant (.intC 2)), (.lt, .constant (.intC 3))]

/-- Parse tree of `"3 < 2 < 1"`. -/
def chain321 : PyExpr :=
  .compare (.constant (.intC 3))
    [(.lt, .constant (.intC 2)), (.lt, .constant (.intC 1))]

/-- Parse tree of `"1 < 3 < 2"`. -/
def chain132 : PyExpr :=
  .compare (.constant (.intC 1))
    [(.lt, .constant (.intC 3)), (.lt, .constant (.intC 2))]

/-- C2: a validated chained comparison evaluates each operand exactly
once, left to right (`evalOperands`), and the node's result is the
left-to-right elementwise-AND fold of the pairwise comparisons of
consecutive operand values (`chainedCompareVals`); consequently
`"1 < 2 < 3"` yields an all-true mask on any table and `"3 < 2 < 1"`
and `"1 < 3 < 2"` yield all-false masks. -/
theorem c2_chained_comparisons :
    (∀ (env : String → Option EnvVal) (l : PyExpr)
        (ps : List (CmpTag × PyExpr)) (v : EnvVal) (pvs : List (CmpTag × EnvVal)),
      evalNode l env = .ok v → evalOperands ps env = .ok pvs →
      evalNode (.compare l ps) env = chainedCompareVals v none pvs) ∧
    (∀ df : Table, eval_expr ⟨"1 < 2 < 3", chain123, []⟩ df =
      .ok (List.replicate df.nrows true)) ∧
    (∀ df : Table, eval_expr ⟨"3 < 2 < 1", chain321, []⟩ df =
      .ok (List.replicate df.nrows false)) ∧
    (∀ df : Table, eval_expr ⟨"1 < 3 < 2", chain132, []⟩ df =
      .ok (List.replicate df.nrows false)) := by
  refine ⟨?_, fun df => rfl, fun df => rfl, fun df => rfl⟩
  intro env l ps v pvs hl hps
  simp only [evalNode, hl, bindE_ok]
  exact evalChain_eq_chainedCompareVals ps env v none pvs hps

theorem c2_chained_comparisons_witness :
    evalNode (.compare (.constant (.intC 1)) [(.lt, .constant (.intC 2))])
        (fun _ => none) =
      chainedCompareVals (.val (.scalar (.intS 1))) none
        [(.lt, .val (.scalar (.intS 2)))] :=
  c2_chained_comparisons.1 (fun _ => none) (.constant (.intC 1))
    [(.lt, .constant (.intC 2))] (.val (.scalar (.intS 1)))
    [(.lt, .val (.scalar (.intS 2)))] rfl rfl

def binAllowed : BinTag → Bool
  | .otherB _ => false
  | _ => true

def unAllowed : UnTag → Bool
  | .otherU _ => false
  | _ => true

def cmpAllowed : CmpTag → Bool
  | .otherC _ => false
  | _ => true

mutual

/-- The allow-list the validator actually enforces: node classes in
`_ALLOWED_NODES` (`Constant` with ANY payload — string literals
included), operators in the allowed operator tuples, calls only to
registry function names with exactly one positional argument and no
keywords.  This is the amended C1 allow-list: the value restriction on
literals (numeric / bool / None) is enforced by `_eval_node`, not at
compile time. -/
def allowedTree : PyExpr → Bool
  | .constant _ => true
  | .name _ => true
  | .unaryOp op e => unAllowed op && allowedTree e
  | .binOp op l r => binAllowed op && allowedTree l && allowedTree r
  | .boolOp _ vs => allowedTreeList vs
  | .compare l ps =>
    ps.all (fun p => cmpAllowed p.1) && allowedTree l && allowedTreePairs ps
  | .call fn args kw =>
    match fn with
    | .name fname =>
      decide (fname ∈ allowedFuncNames) && decide (kw = 0) &&
        decide (args.length = 1) && allowedTreeList args
    | _ => false
  | .other _ _ => false

def allowedTreeList : List PyExpr → Bool
  | [] => true
  | e :: es => allowedTree e && allowedTreeList es

def allowedTreePairs : List (CmpTag × PyExpr) → Bool
  | [] => true
  | p :: ps => allowedTree p.2 && allowedTreePairs ps

end

theorem bindUnit_ok_iff {x y : Except Err Unit} :
    (x >>= fun _ => y) = .ok () ↔ (x = .ok () ∧ y = .ok ()) := by
  cases x with
  | error e => simp [bindE_err]
  | ok u => cases u; simp [bindE_ok]

/-- The validator accepts exactly the allow-listed trees. -/
theorem validate_ok_iff : ∀ t : PyExpr, validate t = .ok () ↔ allowedTree t = true := by
  intro t0
  refine validate.induct
    (fun t => validate t = .ok () ↔ allowedTree t = true)
    (fun ps => validatePairs ps = .ok () ↔ allowedTreePairs ps = true)
    (fun es => validateList es = .ok () ↔ allowedTreeList es = true)
    ?_ ?_ ?_ ?_ ?_ ?_ ?_ ?_ ?_ ?_ ?_ ?_ ?_ ?_ ?_ ?_ ?_ ?_ ?_ t0
  · intro c
    simp [validate, allowedTree]
  · intro id
    simp [validate, allowedTree]
  · intro e k
    simp [validate, allowedTree, unAllowed]
  · intro op e hop ih
    cases op with
    | otherU k => exact absurd rfl (hop k)
    | uAdd => simpa [validate, allowedTree, unAllowed] using ih
    | uSub => simpa [validate, allowedTree, unAllowed] using ih
    | notT => simpa [validate, allowedTree, unAllowed] using ih
  · intro l r k
    simp [validate, allowedTree, binAllowed]
  · intro op l r hop ihl ihr
    have hall : binAllowed op = true := by
      cases op with
      | otherB k => exact absurd rfl (hop k)
      | _ => rfl
    cases op with
    | otherB k => exact absurd rfl (hop k)
    | _ =>
      simp only [validate, allowedTree, hall, Bool.true_and, bindUnit_ok_iff,
        Bool.and_eq_true]
      rw [ihl, ihr]
  · intro op vs ih
    simpa [validate, allowedTree] using ih
  · intro l pairs p hfind
    have hp := List.find?_some hfind
    have hmem : p ∈ pairs := List.mem_of_find?_eq_some hfind
    have hcmp : cmpAllowed p.1 = false := by
      cases hc : p.1 with
      | otherC k => rfl
      | _ => rw [hc] at hp; cases hp
    constructor
    · intro h
      simp only [validate, hfind] at h
      split at h <;> cases h
    · intro h
      simp only [allowedTree, Bool.and_eq_true, List.all_eq_true] at h
      have := h.1.1 p hmem
      rw [hcmp] at this
      cases this
  · intro l pairs hfind ihl ihp
    have hall : pairs.all (fun p => cmpAllowed p.1) = true := by
      rw [List.all_eq_true]
      intro p hmem
      have := List.find?_eq_none.mp hfind p hmem
      cases hc : p.1 with
      | otherC k => rw [hc] at this; simp at this
      | _ => rfl
    simp only [validate, hfind, allowedTree, hall, Bool.true_and,
      bindUnit_ok_iff, Bool.and_eq_true]
    rw [ihl, ihp]
  · intro args numKeywords fname hnotin
    constructor
    · intro h
      simp only [validate, if_pos hnotin] at h
      cases h
    · intro h
      simp only [allowedTree, Bool.and_eq_true, decide_eq_true_eq] at h
      exact absurd h.1.1.1 hnotin
  · intro args numKeywords fname hin hkw
    constructor
    · intro h
      simp only [validate, if_neg hin, if_pos hkw] at h
      cases h
    · intro h
      simp only [allowedTree, Bool.and_eq_true, decide_eq_true_eq] at h
      exact absurd h.1.1.2 hkw
  · intro args numKeywords fname hin hkw hlen
    constructor
    · intro h
      simp only [validate, if_neg hin, if_neg hkw, if_pos hlen] at h
      cases h
    · intro h
      simp only [allowedTree, Bool.and_eq_true, decide_eq_true_eq] at h
      exact absurd h.1.2 hlen
  · intro args numKeywords fname hin hkw hlen ih
    have h1 : fname ∈ allowedFuncNames := by
      by_contra hc
      exact hin hc
    have h2 : numKeywords = 0 := by
      by_contra hc
      exact hkw hc
    have h3 : args.length = 1 := by
      by_contra hc
      exact hlen hc
    simp only [validate, if_neg hin, if_neg hkw, if_neg hlen, allowedTree,
      Bool.and_eq_true, decide_eq_true_eq]
    rw [ih]
    simp [h1, h2, h3]
  · intro fn args numKeywords hne
    constructor
    · intro h
      cases fn with
      | name fname => exact absurd rfl (hne fname)
      | constant c => simp [validate] at h
      | unaryOp op e => simp [validate] at h
      | binOp op l r => simp [validate] at h
      | boolOp op vs => simp [validate] at h
      | compare l ps => simp [validate] at h
      | call f a k => simp [validate] at h
      | other kind cs => simp [validate] at h
    · intro h
      cases fn with
      | name fname => exact absurd rfl (hne fname)
      | constant c => simp [allowedTree] at h
      | unaryOp op e => simp [allowedTree] at h
      | binOp op l r => simp [allowedTree] at h
      | boolOp op vs => simp [allowedTree] at h
      | compare l ps => simp [allowedTree] at h
      | call f a k => simp [allowedTree] at h
      | other kind cs => simp [allowedTree] at h
  · intro kind children
    simp [validate, allowedTree]
  · simp [validateList, allowedTreeList]
  · intro e es ih1 ih2
    simp only [validateList, allowedTreeList, bindUnit_ok_iff, Bool.and_eq_true]
    rw [ih1, ih2]
  · simp [validatePairs, allowedTreePairs]
  · intro p ps ih1 ih2
    simp only [validatePairs, allowedTreePairs, bindUnit_ok_iff, Bool.and_eq_true]
    rw [ih1, ih2]

/-- C1 counterexample: a string literal is a Literal outside
`Literal(number|bool)`, yet `compile_expr` ACCEPTS the tree — no
`UnsupportedSyntaxError` at compile time.  The restriction to
numeric/bool/None literal values is enforced only during evaluation
(`badConstantType`). -/
theorem c1_counterexample :
    compile_expr "string_literal" (.ok (.constant (.strC "s"))) =
      .ok ⟨"string_literal", .constant (.strC "s"), []⟩ ∧
    eval_expr ⟨"string_literal", .constant (.strC "s"), []⟩ exampleTable =
      .error (.exprError (.badConstantType "str")) :=
  ⟨rfl, rfl⟩

/-- C1 (amended): `compile_expr` fails with the syntax `ExprError` when
the text does not parse, and otherwise succeeds exactly when the tree is
allow-listed — node classes limited to
Constant/Name/UnaryOp/BinOp/BoolOp/Compare/Call with the allowed
operator sets, where `Constant` admits ANY literal payload at compile
time (non-numeric/bool/None payloads are rejected at evaluation time);
in particular any call to a function outside the registry (only `abs`)
is rejected at compile time, before any table is consulted
(`compile_expr` takes no table). -/
theorem c1_compile_allow_list :
    (∀ (expr msg : String),
      compile_expr expr (.error msg) = .error (.exprError .invalidSyntax)) ∧
    (∀ (expr : String) (t : PyExpr),
      (∃ c, compile_expr expr (.ok t) = .ok c) ↔ allowedTree t = true) ∧
    (∀ (expr fname : String) (args : List PyExpr) (kw : Nat),
      fname ∉ allowedFuncNames →
      ∀ c, compile_expr expr (.ok (.call (.name fname) args kw)) ≠ .ok c) := by
  have hiff : ∀ (expr : String) (t : PyExpr),
      (∃ c, compile_expr expr (.ok t) = .ok c) ↔ allowedTree t = true := by
    intro expr t
    constructor
    · rintro ⟨c, hc⟩
      rw [← validate_ok_iff]
      unfold compile_expr at hc
      cases hv : validate t with
      | error e => simp only [hv] at hc; cases hc
      | ok u => cases u; rfl
    · intro h
      rw [← validate_ok_iff] at h
      refine ⟨⟨expr, t, (collectNames t).dedup.filter
        (fun n => decide (n ∉ allowedFuncNames))⟩, ?_⟩
      unfold compile_expr
      simp only [h]
  refine ⟨fun expr msg => rfl, hiff, ?_⟩
  intro expr fname args kw hnotin c hc
  have hall : allowedTree (.call (.name fname) args kw) = true :=
    (hiff expr _).mp ⟨c, hc⟩
  simp only [allowedTree, Bool.and_eq_true, decide_eq_true_eq] at hall
  exact hnotin hall.1.1.1

theorem c1_compile_allow_list_witness :
    ("system" ∉ allowedFuncNames) ∧
    compile_expr "call_system" (.ok (.call (.name "system") [.name "x"] 0)) ≠
      .ok ⟨"call_system", .call (.name "system") [.name "x"] 0, ["x"]⟩ :=
  ⟨by decide,
    c1_compile_allow_list.2.2 "call_system" "system" [.name "x"] 0 (by decide) _⟩

/-- C7 counterexample: for the boolean scalar operand `True`, `not`
does NOT yield the logical complement: Python maps `not` to `~`, and on
a Python `bool` (an int subtype) `~True = -2`, a numeric value; the
whole expression then fails the boolean coercion instead of producing
an all-false mask. -/
theorem c7_counterexample :
    evalNode (.unaryOp .notT (.constant (.boolC true))) (fun _ => none) =
      .ok (.val (.scalar (.intS (-2)))) ∧
    Value.scalar (.intS (-2)) ≠ Value.scalar (.boolS false) ∧
    eval_expr ⟨"not True", .unaryOp .notT (.constant (.boolC true)), []⟩
        exampleTable = .error (.exprError .nonBooleanResult) :=
  ⟨rfl, by decide, rfl⟩

/-- C7 (amended): for boolean VECTOR operands the unary operators act
elementwise — `not v` is the logical complement, `+v` is the identity
(pandas `__pos__` copies a boolean Series), and `-v` is again the
logical complement (pandas `__neg__` inverts boolean dtype);  for
boolean SCALAR operands Python treats the bool as the integer 0/1:
`not v` is the bitwise invert `-(v+1)` (not the logical complement),
`+v` is the integer `v`, `-v` the integer `-v`. -/
theorem c7_unary_on_booleans :
    (∀ (e : PyExpr) (env : String → Option EnvVal) (xs : List Bool),
      evalNode e env = .ok (.val (.vector (.boolV xs))) →
      evalNode (.unaryOp .notT e) env =
          .ok (.val (.vector (.boolV (xs.map (fun b => !b))))) ∧
        evalNode (.unaryOp .uAdd e) env = .ok (.val (.vector (.boolV xs))) ∧
        evalNode (.unaryOp .uSub e) env =
          .ok (.val (.vector (.boolV (xs.map (fun b => !b)))))) ∧
    (∀ (e : PyExpr) (env : String → Option EnvVal) (b : Bool),
      evalNode e env = .ok (.val (.scalar (.boolS b))) →
      evalNode (.unaryOp .notT e) env =
          .ok (.val (.scalar (.intS (-((if b then 1 else 0) + 1))))) ∧
        evalNode (.unaryOp .uAdd e) env =
          .ok (.val (.scalar (.intS (if b then 1 else 0)))) ∧
        evalNode (.unaryOp .uSub e) env =
          .ok (.val (.scalar (.intS (-(if b then 1 else 0)))))) := by
  constructor
  · intro e env xs h
    refine ⟨?_, ?_, ?_⟩ <;>
      simp [evalNode, h, bindE_ok, evalUnary, pyInvert, pyPos, pyNeg, Except.map]
  · intro e env b h
    refine ⟨?_, ?_, ?_⟩ <;>
      simp [evalNode, h, bindE_ok, evalUnary, pyInvert, pyPos, pyNeg, Except.map]

/-- Environment binding `b` to the boolean column `[true, false]`. -/
def boolColEnv : String → Option EnvVal :=
  fun id => if id = "b" then some (.val (.vector (.boolV [true, false]))) else none

theorem c7_unary_on_booleans_witness :
    evalNode (.unaryOp .notT (.name "b")) boolColEnv =
      .ok (.val (.vector (.boolV [false, true]))) ∧
    evalNode (.unaryOp .uAdd (.name "b")) boolColEnv =
      .ok (.val (.vector (.boolV [true, false]))) ∧
    evalNode (.unaryOp .uSub (.name "b")) boolColEnv =
      .ok (.val (.vector (.boolV [false, true]))) := by
  have h := c7_unary_on_booleans.1 (.name "b") boolColEnv [true, false] rfl
  simpa using h

/-- C8 counterexample: a missing-column failure and a non-boolean-result
failure — two different taxonomy modes — surface as the SAME Python
exception class `ExprError`, so a caller cannot tell them apart by the
error kind alone. -/
theorem c8_counterexample :
    eval_expr ⟨"foo > 1", fooExpr, ["foo"]⟩ exampleTable =
      .error (.exprError (.missingColumns ["foo"])) ∧
    eval_expr ⟨"dem_h - h_te_best_fit", diffExpr, ["dem_h", "h_te_best_fit"]⟩
        exampleTable = .error (.exprError .nonBooleanVector) ∧
    Err.exprError (.missingColumns ["foo"]) ≠ Err.exprError .nonBooleanVector ∧
    pyExceptionClass (.exprError (.missingColumns ["foo"])) =
      pyExceptionClass (.exprError .nonBooleanVector) :=
  ⟨rfl, rfl, by decide, rfl⟩

/-- C8 (amended): all four failure modes of the taxonomy are surfaced
as the single class `ExprError`, which IS distinguishable from host I/O
failures such as `FileNotFoundError` (caught separately by the CLI), but
the individual modes are distinguishable only by message text, not by
error kind. -/
theorem c8_error_kinds :
    ∀ k : ExprErrKind,
      pyExceptionClass (.exprError k) = "ExprError" ∧
      pyExceptionClass (.exprError k) ≠
        pyExceptionClass (.hostError "FileNotFoundError") := by
  intro k
  exact ⟨rfl, by simp [pyExceptionClass]⟩

end Atl08Kit
